import Mathlib

/-!
# Verification of the pacdef review engine

Shallow embedding of `src/crates/pacdef_core/src/review/mod.rs` and
`src/crates/pacdef_core/src/review/datastructures.rs`.

The interactive environment (stdin / stdout / backend calls) is modelled as an
explicit session state `Sess` carrying one input queue per effectful primitive
(`read_single_char_from_terminal`, `stdin().read_line`, `show_package_info`,
`get_user_confirmation`, `Strategy::execute`), an output trace, and the trace of
strategies that have been executed. Each primitive pops the head of its own
queue; an empty queue is modelled as the distinguished error `Err.outOfInput`
(the real terminal would block forever). The `loop` in `get_action_for_package`
is modelled with explicit fuel: fuel 0 also yields `Err.outOfInput`.
Rust `panic!` / `assert!` failure is the distinguished error `Err.assertFailed`;
it can never sit in an input queue, whose entries carry only `IOErr`.
-/

namespace Pacdef

/-- A package is identified opaquely; only its display name matters here. -/
abbrev Package := String

/-- Opaque payload of an I/O or backend error (`anyhow::Error` message). -/
abbrev IOErr := String

/-- `Group` lives outside `src/`. Modelled from the spec: "a name plus an
ordered/unordered set of package identifiers it declares. Ordered by name for
deterministic display". -/
structure Group where
  name : String
  packages : List String
deriving DecidableEq, Repr

/-- The backend capability surface consumed by the review engine: a section
label (`get_section`) and the constant capability flag
(`supports_as_dependency`). The fallible methods `show_package_info` and
`Strategy::execute` draw their results from the session's input queues. -/
structure Backend where
  sectionLabel : String
  supports_as_dependency : Bool
deriving DecidableEq, Repr

/-- Errors observable from the embedded functions. -/
inductive Err where
  /-- an I/O or backend error propagated with `?` -/
  | io (e : IOErr)
  /-- artifact of the finite model: an input queue (or the loop fuel) ran out -/
  | outOfInput
  /-- a Rust `assert!` failed (process panic) -/
  | assertFailed
deriving DecidableEq, Repr

/-- `ReviewIntention` from `datastructures.rs`. -/
inductive ReviewIntention where
  | AsDependency
  | AssignGroup
  | Delete
  | Info
  | Invalid
  | Skip
  | Quit
deriving DecidableEq, Repr

/-- `ReviewAction` from `datastructures.rs`. -/
inductive ReviewAction where
  | AsDependency (package : Package)
  | Delete (package : Package)
  | AssignGroup (package : Package) (group : Group)
deriving DecidableEq, Repr

/-- `ContinueWithReview` from `datastructures.rs`. -/
inductive ContinueWithReview where
  | Yes
  | No
deriving DecidableEq, Repr

/-- `Strategy` lives outside `src/`. Modelled from the spec: "per-backend
execution plan: three ordered lists — packages to delete, packages to mark
as-dependency, and (package, group) pairs to assign. A Strategy with all three
lists empty is considered nothing to do". Constructor argument order follows
the call `Strategy::new(backend, to_delete, as_dependency, assign_group)` in
`datastructures.rs`. -/
structure Strategy where
  backend : Backend
  to_delete : List Package
  as_dependency : List Package
  assign_group : List (Package × Group)
deriving DecidableEq, Repr

/-- `Strategy::nothing_to_do`, modelled from the spec: all three lists empty. -/
def Strategy.nothing_to_do (s : Strategy) : Bool :=
  s.to_delete.isEmpty && s.as_dependency.isEmpty && s.assign_group.isEmpty

/-- Events of the output trace (stdout). -/
inductive OutEvent where
  /-- a plain `println!` line (package header, "nothing to do", blank line,
  strategy preview) -/
  | text (s : String)
  /-- the action prompt printed by `print_query`, parametrised by the backend
  capability that decides whether "(a)s dependency" is offered -/
  | query (supports_as_dependency : Bool)
  /-- one line of `print_enumerated_groups`: index, field width, group name -/
  | groupLine (idx width : Nat) (name : String)
deriving DecidableEq, Repr

deriving instance DecidableEq for Except

/-- The session: one input queue per fallible primitive, the output trace, and
the trace of executed strategies. -/
structure Sess where
  /-- future results of `read_single_char_from_terminal` -/
  chars : List (Except IOErr Char)
  /-- future results of `stdin().read_line` -/
  lines : List (Except IOErr String)
  /-- future results of `Backend::show_package_info` -/
  infos : List (Except IOErr Unit)
  /-- future results of `get_user_confirmation` -/
  confirms : List (Except IOErr Bool)
  /-- future results of `Strategy::execute` -/
  execs : List (Except IOErr Unit)
  /-- stdout trace so far -/
  out : List OutEvent
  /-- strategies successfully executed so far -/
  executed : List Strategy
deriving DecidableEq, Repr

/-- An all-empty session, convenient for concrete runs. -/
def Sess.empty : Sess := ⟨[], [], [], [], [], [], []⟩

/-- Append one output event. -/
def Sess.print (s : Sess) (e : OutEvent) : Sess :=
  { s with out := s.out ++ [e] }

/-- `read_single_char_from_terminal` (from `crate::ui`, consumed at its
interface): pops the head of the char queue. -/
def read_single_char_from_terminal (s : Sess) : Except Err Char × Sess :=
  match s.chars with
  | [] => (.error .outOfInput, s)
  | .ok c :: rest => (.ok c, { s with chars := rest })
  | .error e :: rest => (.error (.io e), { s with chars := rest })

/-- `stdin().read_line` inside `ask_group`: pops the head of the line queue. -/
def read_line (s : Sess) : Except Err String × Sess :=
  match s.lines with
  | [] => (.error .outOfInput, s)
  | .ok l :: rest => (.ok l, { s with lines := rest })
  | .error e :: rest => (.error (.io e), { s with lines := rest })

/-- `Backend::show_package_info` (consumed at its interface): pops the head of
the info-result queue. -/
def show_package_info (s : Sess) : Except Err Unit × Sess :=
  match s.infos with
  | [] => (.error .outOfInput, s)
  | .ok u :: rest => (.ok u, { s with infos := rest })
  | .error e :: rest => (.error (.io e), { s with infos := rest })

/-- `get_user_confirmation` (from `crate::ui`, consumed at its interface):
pops the head of the confirmation queue. -/
def get_user_confirmation (s : Sess) : Except Err Bool × Sess :=
  match s.confirms with
  | [] => (.error .outOfInput, s)
  | .ok b :: rest => (.ok b, { s with confirms := rest })
  | .error e :: rest => (.error (.io e), { s with confirms := rest })

/-- `Strategy::execute`, modelled from the spec: "applies delete /
as-dependency / assign-group operations; failure aborts remaining strategies".
Pops the head of the execution-result queue; on success the strategy is
appended to the executed trace. -/
def Strategy.execute (strat : Strategy) (s : Sess) : Except Err Unit × Sess :=
  match s.execs with
  | [] => (.error .outOfInput, s)
  | .ok _ :: rest =>
      (.ok (), { s with execs := rest, executed := s.executed ++ [strat] })
  | .error e :: rest => (.error (.io e), { s with execs := rest })

/-- `print_query`: the action prompt, whose text depends on the capability
flag. The trailing stdout flush is modelled as infallible. -/
def print_query (supports_as_dependency : Bool) (s : Sess) : Sess :=
  s.print (.query supports_as_dependency)

/-- `get_amount_of_digits_for_number`: the source computes
`(number as f64).log10().trunc() as usize + 1`. Modelled with Rust float
semantics made explicit over `Nat`: for `number = 0`, `log10` is `-inf`,
`trunc` keeps `-inf`, and the `as usize` cast saturates to `0`, giving `1`;
for `number ≥ 1` the formula yields the decimal digit count
`Nat.log 10 number + 1`. -/
def get_amount_of_digits_for_number (number : Nat) : Nat :=
  if number = 0 then 1 else Nat.log 10 number + 1

/-- `print_enumerated_groups`: one right-aligned line per group, width taken
from `get_amount_of_digits_for_number` of the group count. -/
def print_enumerated_groups (groups : List Group) (s : Sess) : Sess :=
  let number_digits := get_amount_of_digits_for_number groups.length
  { s with
    out := s.out ++ groups.enum.map (fun ig =>
      OutEvent.groupLine ig.1 number_digits ig.2.name) }

/-- Rust `str::trim` strips leading and trailing whitespace. Modelled
structurally over the character list (kernel-computable); Lean's
`Char.isWhitespace` covers the ASCII whitespace characters, on which this
agrees with Rust's Unicode `White_Space` set. -/
def str_trim (s : String) : String :=
  ⟨((s.data.dropWhile Char.isWhitespace).reverse.dropWhile
      Char.isWhitespace).reverse⟩

/-- Rust `str::parse::<usize>`: an optional leading `'+'`, then one or more
ASCII digits and nothing else. Overflow (`> usize::MAX`) is an `Err` in Rust;
here the unbounded value is returned instead, which leaves `ask_group`'s
observable behaviour unchanged because such a value also fails the
`idx < groups.len()` bound. -/
def parse_usize (str : String) : Option Nat :=
  let ds := match str.data with
    | '+' :: rest => rest
    | cs => cs
  if ds.isEmpty then none
  else if ds.all Char.isDigit then
    some (ds.foldl (fun n c => n * 10 + (c.toNat - 48)) 0)
  else none

/-- `ask_group` from `mod.rs`: print the enumerated groups, read one line,
trim it, parse it as `usize`; a parse failure or an out-of-bounds index yields
`Ok(None)`, a valid index yields the shared reference to that group. -/
def ask_group (groups : List Group) (s : Sess) : Except Err (Option Group) × Sess :=
  let s := print_enumerated_groups groups s
  match read_line s with
  | (.error e, s) => (.error e, s)
  | (.ok buf, s) =>
    let reply := str_trim buf
    match parse_usize reply with
    | none => (.ok none, s)
    | some idx =>
      if h : idx < groups.length then (.ok (some (groups.get ⟨idx, h⟩)), s)
      else (.ok none, s)

/-- `ask_user_action_for_package` from `mod.rs`: print the query, read one
character, lowercase it, and map it to a `ReviewIntention`; `'a'` maps to
`AsDependency` only under the capability flag, otherwise it falls through to
`Invalid` like any unrecognized character. -/
def ask_user_action_for_package (supports_as_dependency : Bool) (s : Sess) :
    Except Err ReviewIntention × Sess :=
  let s := print_query supports_as_dependency s
  match read_single_char_from_terminal s with
  | (.error e, s) => (.error e, s)
  | (.ok c, s) =>
    let c := c.toLower
    let i :=
      if c = 'a' && supports_as_dependency then ReviewIntention.AsDependency
      else if c = 'd' then ReviewIntention.Delete
      else if c = 'g' then ReviewIntention.AssignGroup
      else if c = 'i' then ReviewIntention.Info
      else if c = 'q' then ReviewIntention.Quit
      else if c = 's' then ReviewIntention.Skip
      else ReviewIntention.Invalid
    (.ok i, s)

/-- `get_action_for_package` from `mod.rs`. The `&mut Vec<ReviewAction>` is
passed and returned explicitly; the `loop` is driven by `fuel` (each real
iteration consumes at least one character, so any sufficiently large fuel is
faithful). Note the source's `if let Ok(Some(group)) = ask_group(groups)`:
both `Ok(None)` and `Err(_)` fall through and the loop continues, so an I/O
error from the group-selection line read is swallowed, not propagated. The
`assert!` in the `AsDependency` arm is modelled as `Err.assertFailed`. -/
def get_action_for_package (fuel : Nat) (package : Package) (groups : List Group)
    (reviews : List ReviewAction) (backend : Backend) (s : Sess) :
    Except Err ContinueWithReview × List ReviewAction × Sess :=
  match fuel with
  | 0 => (.error .outOfInput, reviews, s)
  | fuel + 1 =>
    match ask_user_action_for_package backend.supports_as_dependency s with
    | (.error e, s) => (.error e, reviews, s)
    | (.ok intention, s) =>
      match intention with
      | .AsDependency =>
        if backend.supports_as_dependency then
          (.ok .Yes, reviews ++ [ReviewAction.AsDependency package], s)
        else
          (.error .assertFailed, reviews, s)
      | .AssignGroup =>
        match ask_group groups s with
        | (.ok (some group), s) =>
          (.ok .Yes, reviews ++ [ReviewAction.AssignGroup package group], s)
        | (.ok none, s) => get_action_for_package fuel package groups reviews backend s
        | (.error _, s) => get_action_for_package fuel package groups reviews backend s
      | .Delete => (.ok .Yes, reviews ++ [ReviewAction.Delete package], s)
      | .Info =>
        match show_package_info s with
        | (.error e, s) => (.error e, reviews, s)
        | (.ok _, s) => get_action_for_package fuel package groups reviews backend s
      | .Invalid => get_action_for_package fuel package groups reviews backend s
      | .Skip => (.ok .Yes, reviews, s)
      | .Quit => (.ok .No, reviews, s)

/-- `extract_actions` from `datastructures.rs`: distribute the ordered action
list over the three output vectors `(to_delete, assign_group, as_dependency)`,
preserving relative order within each. -/
def extract_actions : List ReviewAction →
    List Package × List (Package × Group) × List Package
  | [] => ([], [], [])
  | a :: rest =>
    let tda := extract_actions rest
    match a with
    | .Delete p => (p :: tda.1, tda.2.1, tda.2.2)
    | .AssignGroup p g => (tda.1, (p, g) :: tda.2.1, tda.2.2)
    | .AsDependency p => (tda.1, tda.2.1, p :: tda.2.2)

/-- `ReviewsPerBackend::into_strategies` from `datastructures.rs`: one
`Strategy` per `(backend, actions)` pair via `extract_actions`, then
`retain(|s| !s.nothing_to_do())`. -/
def into_strategies (items : List (Backend × List ReviewAction)) : List Strategy :=
  (items.map (fun ba =>
    let tda := extract_actions ba.2
    Strategy.mk ba.1 tda.1 tda.2.2 tda.2.1)).filter
    (fun s => !s.nothing_to_do)

/-- `ReviewsPerBackend::nothing_to_do`: every backend's action list is empty. -/
def reviews_nothing_to_do (items : List (Backend × List ReviewAction)) : Bool :=
  items.all (fun ba => ba.2.isEmpty)

/-- `ToDoPerBackend::nothing_to_do_for_all_backends` lives outside `src/`.
Modelled from the spec: "For all inputs where every backend's package list is
empty, the system reports nothing to do". -/
def nothing_to_do_for_all_backends (todo : List (Backend × List Package)) : Bool :=
  todo.all (fun bp => bp.2.isEmpty)

/-- Insert a group into a name-sorted list. -/
def insertGroup (g : Group) : List Group → List Group
  | [] => [g]
  | h :: t => if g.name ≤ h.name then g :: h :: t else h :: insertGroup g t

/-- `groups.sort_unstable()` in `review`: `Group`'s `Ord` lives outside
`src/`. Modelled from the spec: "Ordered by name for deterministic display". -/
def sortGroups : List Group → List Group
  | [] => []
  | g :: t => insertGroup g (sortGroups t)

/-- `Strategy::show` lives outside `src/`. Modelled from the spec: preview of
"backend identity + grouped action summary"; here one text line naming the
backend section. -/
def Strategy.show (strat : Strategy) (s : Sess) : Sess :=
  s.print (.text strat.backend.sectionLabel)

/-- The preview loop of `review` (lines 51–59): show each strategy, with a
blank line between two consecutive ones. -/
def show_strategies : List Strategy → Sess → Sess
  | [], s => s
  | [strat], s => strat.show s
  | strat :: rest, s => show_strategies rest ((strat.show s).print (.text ""))

/-- The execution loop of `review` (lines 66–68): execute the strategies in
order, propagating the first failure with `?`. -/
def execute_strategies : List Strategy → Sess → Except Err Unit × Sess
  | [], s => (.ok (), s)
  | strat :: rest, s =>
    match strat.execute s with
    | (.error e, s) => (.error e, s)
    | (.ok _, s) => execute_strategies rest s

/-- The per-package inner loop of `review` (lines 33–39): print the package
header, run `get_action_for_package`; `ContinueWithReview::No` (quit) is
signalled as `none`. -/
def review_packages (fuel : Nat) (backend : Backend) (groups : List Group) :
    List Package → List ReviewAction → Sess →
    Except Err (Option (List ReviewAction)) × Sess
  | [], actions, s => (.ok (some actions), s)
  | p :: ps, actions, s =>
    let s := s.print (.text (backend.sectionLabel ++ ": " ++ p))
    match get_action_for_package fuel p groups actions backend s with
    | (.error e, _, s) => (.error e, s)
    | (.ok .Yes, actions, s) => review_packages fuel backend groups ps actions s
    | (.ok .No, _, s) => (.ok none, s)

/-- The per-backend outer loop of `review` (lines 31–41), accumulating the
`ReviewsPerBackend` items in order; `none` signals quit. -/
def review_backends (fuel : Nat) (groups : List Group) :
    List (Backend × List Package) → List (Backend × List ReviewAction) → Sess →
    Except Err (Option (List (Backend × List ReviewAction))) × Sess
  | [], revs, s => (.ok (some revs), s)
  | (b, pkgs) :: rest, revs, s =>
    match review_packages fuel b groups pkgs [] s with
    | (.error e, s) => (.error e, s)
    | (.ok none, s) => (.ok none, s)
    | (.ok (some actions), s) =>
      review_backends fuel groups rest (revs ++ [(b, actions)]) s

/-- The tail of `review` after the collection loop (lines 43–70): the
`nothing_to_do` short-circuit, strategy building, preview, the single
confirmation, and sequential execution. -/
def preview_and_execute (revs : List (Backend × List ReviewAction)) (s : Sess) :
    Except Err Unit × Sess :=
  if reviews_nothing_to_do revs then
    (.ok (), s.print (.text "nothing to do"))
  else
    let strategies := into_strategies revs
    let s := show_strategies strategies (s.print (.text ""))
    let s := s.print (.text "")
    match get_user_confirmation s with
    | (.error e, s) => (.error e, s)
    | (.ok false, s) => (.ok (), s)
    | (.ok true, s) => execute_strategies strategies s

/-- `review` from `mod.rs`: sort the groups, short-circuit when there is
nothing to review, collect actions per backend (quit returns `Ok(())`
immediately), then hand over to the preview/confirm/execute phase. -/
def review (fuel : Nat) (todo : List (Backend × List Package))
    (groups : List Group) (s : Sess) : Except Err Unit × Sess :=
  let sorted := sortGroups groups
  if nothing_to_do_for_all_backends todo then
    (.ok (), s.print (.text "nothing to do"))
  else
    match review_backends fuel sorted todo [] s with
    | (.error e, s) => (.error e, s)
    | (.ok none, s) => (.ok (), s)
    | (.ok (some revs), s) => preview_and_execute revs s

/-! ## Helper lemmas -/

/-- The review-collection phase never touches the confirmation queue, the
execution-result queue, or the executed trace; this predicate records that. -/
def UnchangedCEE (s t : Sess) : Prop :=
  t.confirms = s.confirms ∧ t.execs = s.execs ∧ t.executed = s.executed

theorem unchangedCEE_refl (s : Sess) : UnchangedCEE s s := ⟨rfl, rfl, rfl⟩

theorem unchangedCEE_trans {s t u : Sess} (h1 : UnchangedCEE s t)
    (h2 : UnchangedCEE t u) : UnchangedCEE s u :=
  ⟨h2.1.trans h1.1, h2.2.1.trans h1.2.1, h2.2.2.trans h1.2.2⟩

theorem read_char_unchangedCEE (s : Sess) :
    UnchangedCEE s (read_single_char_from_terminal s).2 := by
  rcases h : s.chars with _ | ⟨x, rest⟩
  · simp [read_single_char_from_terminal, h, UnchangedCEE]
  · rcases x with e | c <;>
      simp [read_single_char_from_terminal, h, UnchangedCEE]

theorem read_line_unchangedCEE (s : Sess) :
    UnchangedCEE s (read_line s).2 := by
  rcases h : s.lines with _ | ⟨x, rest⟩
  · simp [read_line, h, UnchangedCEE]
  · rcases x with e | l <;> simp [read_line, h, UnchangedCEE]

theorem show_info_unchangedCEE (s : Sess) :
    UnchangedCEE s (show_package_info s).2 := by
  rcases h : s.infos with _ | ⟨x, rest⟩
  · simp [show_package_info, h, UnchangedCEE]
  · rcases x with e | u <;> simp [show_package_info, h, UnchangedCEE]

theorem print_unchangedCEE (s : Sess) (e : OutEvent) :
    UnchangedCEE s (s.print e) := ⟨rfl, rfl, rfl⟩

theorem print_groups_unchangedCEE (groups : List Group) (s : Sess) :
    UnchangedCEE s (print_enumerated_groups groups s) := ⟨rfl, rfl, rfl⟩

/-- Both branches of `ask_user_action_for_package` return the session produced
by the char read after the prompt print. -/
theorem ask_user_snd (sad : Bool) (s : Sess) :
    (ask_user_action_for_package sad s).2 =
      (read_single_char_from_terminal (print_query sad s)).2 := by
  unfold ask_user_action_for_package
  rcases h : read_single_char_from_terminal (print_query sad s) with ⟨r, t⟩
  cases r <;> simp [h]

theorem ask_user_unchangedCEE (sad : Bool) (s : Sess) :
    UnchangedCEE s (ask_user_action_for_package sad s).2 := by
  rw [ask_user_snd]
  exact unchangedCEE_trans (print_unchangedCEE s _)
    (read_char_unchangedCEE _)

/-- All branches of `ask_group` return the session produced by the line read
after the group enumeration print. -/
theorem ask_group_snd (groups : List Group) (s : Sess) :
    (ask_group groups s).2 =
      (read_line (print_enumerated_groups groups s)).2 := by
  unfold ask_group
  rcases h : read_line (print_enumerated_groups groups s) with ⟨r, t⟩
  cases r with
  | error e => simp [h]
  | ok buf =>
    simp only [h]
    rcases parse_usize (str_trim buf) with _ | idx
    · simp
    · by_cases hi : idx < groups.length <;> simp [hi]

theorem ask_group_unchangedCEE (groups : List Group) (s : Sess) :
    UnchangedCEE s (ask_group groups s).2 := by
  rw [ask_group_snd]
  exact unchangedCEE_trans (print_groups_unchangedCEE groups s)
    (read_line_unchangedCEE _)

theorem gafp_unchangedCEE (fuel : Nat) (p : Package) (groups : List Group)
    (reviews : List ReviewAction) (b : Backend) (s : Sess) :
    UnchangedCEE s (get_action_for_package fuel p groups reviews b s).2.2 := by
  induction fuel generalizing reviews s with
  | zero => exact unchangedCEE_refl s
  | succ fuel ih =>
    simp only [get_action_for_package]
    rcases h1 : ask_user_action_for_package b.supports_as_dependency s with ⟨r1, s1⟩
    have hu1 : UnchangedCEE s s1 := by
      have := ask_user_unchangedCEE b.supports_as_dependency s
      rwa [h1] at this
    cases r1 with
    | error e => exact hu1
    | ok intention =>
      cases intention with
      | AsDependency =>
        cases hb : b.supports_as_dependency <;> simp [hb] <;> exact hu1
      | AssignGroup =>
        rcases h2 : ask_group groups s1 with ⟨r2, s2⟩
        have hu2 : UnchangedCEE s s2 := by
          have := ask_group_unchangedCEE groups s1
          rw [h2] at this
          exact unchangedCEE_trans hu1 this
        simp only [h2]
        cases r2 with
        | error e => exact unchangedCEE_trans hu2 (ih reviews s2)
        | ok og =>
          cases og with
          | none => exact unchangedCEE_trans hu2 (ih reviews s2)
          | some g => exact hu2
      | Delete => exact hu1
      | Info =>
        rcases h3 : show_package_info s1 with ⟨r3, s3⟩
        have hu3 : UnchangedCEE s s3 := by
          have := show_info_unchangedCEE s1
          rw [h3] at this
          exact unchangedCEE_trans hu1 this
        simp only [h3]
        cases r3 with
        | error e => exact hu3
        | ok u => exact unchangedCEE_trans hu3 (ih reviews s3)
      | Invalid => exact unchangedCEE_trans hu1 (ih reviews s1)
      | Skip => exact hu1
      | Quit => exact hu1

/-- Pushes to the action vector happen only at a `break`: the result vector is
the input vector, or the input vector with exactly one action appended; on an
error or on exit code `No` (quit) it is the input vector unchanged. -/
theorem gafp_reviews (fuel : Nat) (p : Package) (groups : List Group)
    (reviews : List ReviewAction) (b : Backend) (s : Sess) :
    ((get_action_for_package fuel p groups reviews b s).2.1 = reviews ∨
      ∃ a, (get_action_for_package fuel p groups reviews b s).2.1 = reviews ++ [a]) ∧
    (∀ e, (get_action_for_package fuel p groups reviews b s).1 = .error e →
      (get_action_for_package fuel p groups reviews b s).2.1 = reviews) ∧
    ((get_action_for_package fuel p groups reviews b s).1 = .ok .No →
      (get_action_for_package fuel p groups reviews b s).2.1 = reviews) := by
  induction fuel generalizing reviews s with
  | zero => exact ⟨Or.inl rfl, fun _ _ => rfl, fun _ => rfl⟩
  | succ fuel ih =>
    simp only [get_action_for_package]
    rcases h1 : ask_user_action_for_package b.supports_as_dependency s with ⟨r1, s1⟩
    cases r1 with
    | error e => exact ⟨Or.inl rfl, fun _ _ => rfl, fun h => by simp at h⟩
    | ok intention =>
      cases intention with
      | AsDependency =>
        cases hb : b.supports_as_dependency
        · exact ⟨Or.inl rfl, fun _ _ => rfl, fun h => by simp at h⟩
        · exact ⟨Or.inr ⟨_, rfl⟩, fun e h => by simp at h, fun h => by simp at h⟩
      | AssignGroup =>
        rcases h2 : ask_group groups s1 with ⟨r2, s2⟩
        simp only [h2]
        cases r2 with
        | error e => exact ih reviews s2
        | ok og =>
          cases og with
          | none => exact ih reviews s2
          | some g =>
            exact ⟨Or.inr ⟨_, rfl⟩, fun e h => by simp at h, fun h => by simp at h⟩
      | Delete =>
        exact ⟨Or.inr ⟨_, rfl⟩, fun e h => by simp at h, fun h => by simp at h⟩
      | Info =>
        rcases h3 : show_package_info s1 with ⟨r3, s3⟩
        simp only [h3]
        cases r3 with
        | error e => exact ⟨Or.inl rfl, fun _ _ => rfl, fun h => by simp at h⟩
        | ok u => exact ih reviews s3
      | Invalid => exact ih reviews s1
      | Skip => exact ⟨Or.inl rfl, fun e h => by simp at h, fun h => by simp at h⟩
      | Quit => exact ⟨Or.inl rfl, fun e h => by simp at h, fun _ => rfl⟩

theorem read_char_error_shape (s : Sess) (e : Err)
    (h : (read_single_char_from_terminal s).1 = .error e) : e ≠ .assertFailed := by
  rcases hc : s.chars with _ | ⟨x, rest⟩
  · simp [read_single_char_from_terminal, hc] at h
    subst h
    simp
  · rcases x with e2 | c <;>
      simp [read_single_char_from_terminal, hc] at h
    subst h
    simp

theorem show_info_error_shape (s : Sess) (e : Err)
    (h : (show_package_info s).1 = .error e) : e ≠ .assertFailed := by
  rcases hc : s.infos with _ | ⟨x, rest⟩
  · simp [show_package_info, hc] at h
    subst h
    simp
  · rcases x with e2 | u <;> simp [show_package_info, hc] at h
    subst h
    simp

theorem ask_user_error_shape (sad : Bool) (s : Sess) (e : Err)
    (h : (ask_user_action_for_package sad s).1 = .error e) : e ≠ .assertFailed := by
  unfold ask_user_action_for_package at h
  rcases hr : read_single_char_from_terminal (print_query sad s) with ⟨r, t⟩
  simp only [hr] at h
  cases r with
  | error e2 =>
    simp at h
    subst h
    exact read_char_error_shape _ _ (by rw [hr])
  | ok c => simp at h

/-- `ask_user_action_for_package` yields `AsDependency` only when the
capability flag is set: with the flag down, `'a'` falls through every arm
to `Invalid`. -/
theorem ask_user_asdep (sad : Bool) (s : Sess)
    (h : (ask_user_action_for_package sad s).1 = .ok .AsDependency) :
    sad = true := by
  unfold ask_user_action_for_package at h
  rcases hr : read_single_char_from_terminal (print_query sad s) with ⟨r, t⟩
  simp only [hr] at h
  cases r with
  | error e => simp at h
  | ok c =>
    cases sad with
    | true => rfl
    | false =>
      exfalso
      simp only [Bool.and_false, if_false] at h
      simp at h
      split_ifs at h

/-- The `assert!` in the `AsDependency` arm never fires: the intention
`AsDependency` is only produced under the capability flag. -/
theorem gafp_no_assert (fuel : Nat) (p : Package) (groups : List Group)
    (reviews : List ReviewAction) (b : Backend) (s : Sess) :
    (get_action_for_package fuel p groups reviews b s).1 ≠ .error .assertFailed := by
  induction fuel generalizing reviews s with
  | zero => simp [get_action_for_package]
  | succ fuel ih =>
    simp only [get_action_for_package]
    rcases h1 : ask_user_action_for_package b.supports_as_dependency s with ⟨r1, s1⟩
    cases r1 with
    | error e =>
      have he : e ≠ .assertFailed :=
        ask_user_error_shape b.supports_as_dependency s e (by rw [h1])
      simpa using he
    | ok intention =>
      cases intention with
      | AsDependency =>
        have hb : b.supports_as_dependency = true :=
          ask_user_asdep b.supports_as_dependency s (by rw [h1])
        simp [hb]
      | AssignGroup =>
        rcases h2 : ask_group groups s1 with ⟨r2, s2⟩
        simp only [h2]
        cases r2 with
        | error e => exact ih reviews s2
        | ok og =>
          cases og with
          | none => exact ih reviews s2
          | some g => simp
      | Delete => simp
      | Info =>
        rcases h3 : show_package_info s1 with ⟨r3, s3⟩
        simp only [h3]
        cases r3 with
        | error e =>
          have he : e ≠ .assertFailed :=
            show_info_error_shape s1 e (by rw [h3])
          simpa using he
        | ok u => exact ih reviews s3
      | Invalid => exact ih reviews s1
      | Skip => simp
      | Quit => simp

/-- One successful keystroke read: the prompt is printed, the character is
consumed, and the lowercased character selects the intention. -/
theorem ask_user_ok_char (sad : Bool) (s : Sess) (c : Char)
    (rest : List (Except IOErr Char)) (h : s.chars = .ok c :: rest) :
    ask_user_action_for_package sad s =
      (.ok (if (c.toLower = 'a') && sad then ReviewIntention.AsDependency
        else if c.toLower = 'd' then ReviewIntention.Delete
        else if c.toLower = 'g' then ReviewIntention.AssignGroup
        else if c.toLower = 'i' then ReviewIntention.Info
        else if c.toLower = 'q' then ReviewIntention.Quit
        else if c.toLower = 's' then ReviewIntention.Skip
        else ReviewIntention.Invalid),
       { s with chars := rest, out := s.out ++ [OutEvent.query sad] }) := by
  unfold ask_user_action_for_package print_query Sess.print
    read_single_char_from_terminal
  simp [h]

/-- A failed keystroke read: the prompt is printed, the error result is
consumed and propagated. -/
theorem ask_user_err_char (sad : Bool) (s : Sess) (e : IOErr)
    (rest : List (Except IOErr Char)) (h : s.chars = .error e :: rest) :
    ask_user_action_for_package sad s =
      (.error (.io e),
       { s with chars := rest, out := s.out ++ [OutEvent.query sad] }) := by
  unfold ask_user_action_for_package print_query Sess.print
    read_single_char_from_terminal
  simp [h]

theorem review_packages_unchangedCEE (fuel : Nat) (b : Backend)
    (groups : List Group) (pkgs : List Package) (actions : List ReviewAction)
    (s : Sess) :
    UnchangedCEE s (review_packages fuel b groups pkgs actions s).2 := by
  induction pkgs generalizing actions s with
  | nil => exact unchangedCEE_refl s
  | cons p ps ih =>
    simp only [review_packages]
    rcases hg : get_action_for_package fuel p groups actions b
        (Sess.print s (.text (b.sectionLabel ++ ": " ++ p))) with ⟨r, acts, s2⟩
    have hu : UnchangedCEE s s2 := by
      have h1 := gafp_unchangedCEE fuel p groups actions b
        (Sess.print s (.text (b.sectionLabel ++ ": " ++ p)))
      rw [hg] at h1
      exact unchangedCEE_trans (print_unchangedCEE s _) h1
    cases r with
    | error e => exact hu
    | ok cont =>
      cases cont with
      | Yes => exact unchangedCEE_trans hu (ih acts s2)
      | No => exact hu

theorem review_backends_unchangedCEE (fuel : Nat) (groups : List Group)
    (todo : List (Backend × List Package))
    (revs : List (Backend × List ReviewAction)) (s : Sess) :
    UnchangedCEE s (review_backends fuel groups todo revs s).2 := by
  induction todo generalizing revs s with
  | nil => exact unchangedCEE_refl s
  | cons bp rest ih =>
    rcases bp with ⟨b, pkgs⟩
    simp only [review_backends]
    rcases hp : review_packages fuel b groups pkgs [] s with ⟨r, s2⟩
    have hu : UnchangedCEE s s2 := by
      have h1 := review_packages_unchangedCEE fuel b groups pkgs [] s
      rwa [hp] at h1
    cases r with
    | error e => exact hu
    | ok o =>
      cases o with
      | none => exact hu
      | some actions => exact unchangedCEE_trans hu (ih _ s2)

/-- The preview phase only prints: every queue and the executed trace are
untouched. -/
theorem show_strategies_fields (l : List Strategy) (s : Sess) :
    (show_strategies l s).chars = s.chars ∧
    (show_strategies l s).lines = s.lines ∧
    (show_strategies l s).infos = s.infos ∧
    (show_strategies l s).confirms = s.confirms ∧
    (show_strategies l s).execs = s.execs ∧
    (show_strategies l s).executed = s.executed := by
  induction l generalizing s with
  | nil => exact ⟨rfl, rfl, rfl, rfl, rfl, rfl⟩
  | cons strat rest ih =>
    cases rest with
    | nil => exact ⟨rfl, rfl, rfl, rfl, rfl, rfl⟩
    | cons s2 r2 =>
      simp only [show_strategies]
      exact ih _

/-- The execution loop touches only the execution queue and the executed
trace. -/
theorem execute_strategies_fields (l : List Strategy) (s : Sess) :
    (execute_strategies l s).2.chars = s.chars ∧
    (execute_strategies l s).2.lines = s.lines ∧
    (execute_strategies l s).2.infos = s.infos ∧
    (execute_strategies l s).2.confirms = s.confirms ∧
    (execute_strategies l s).2.out = s.out := by
  induction l generalizing s with
  | nil => exact ⟨rfl, rfl, rfl, rfl, rfl⟩
  | cons strat rest ih =>
    simp only [execute_strategies]
    rcases hx : Strategy.execute strat s with ⟨r, s2⟩
    have hfields : s2.chars = s.chars ∧ s2.lines = s.lines ∧ s2.infos = s.infos ∧
        s2.confirms = s.confirms ∧ s2.out = s.out := by
      unfold Strategy.execute at hx
      rcases he : s.execs with _ | ⟨x, xs⟩
      · rw [he] at hx
        cases hx
        exact ⟨rfl, rfl, rfl, rfl, rfl⟩
      · rcases x with e2 | u <;> rw [he] at hx <;> cases hx <;>
          exact ⟨rfl, rfl, rfl, rfl, rfl⟩
    cases r with
    | error e => exact hfields
    | ok u =>
      have := ih s2
      exact ⟨this.1.trans hfields.1, this.2.1.trans hfields.2.1,
        this.2.2.1.trans hfields.2.2.1, this.2.2.2.1.trans hfields.2.2.2.1,
        this.2.2.2.2.trans hfields.2.2.2.2⟩

/-- With no known groups, `ask_group` can only answer "no group" or propagate
the line-read failure; the index bound `idx < 0` never holds. -/
theorem ask_group_nil_result (s : Sess) :
    (ask_group [] s).1 = .ok none ∨ (ask_group [] s).1 = .error .outOfInput ∨
      ∃ e, (ask_group [] s).1 = .error (.io e) := by
  unfold ask_group read_line
  rcases hl : (print_enumerated_groups [] s).lines with _ | ⟨x, xs⟩
  · simp [hl]
  · rcases x with e | buf
    · simp [hl]
    · simp only [hl]
      cases hp : parse_usize (str_trim buf) with
      | none => simp [hp]
      | some idx => simp [hp]

theorem ask_group_nil_not_some (s : Sess) (g : Group) :
    (ask_group [] s).1 ≠ .ok (some g) := by
  rcases ask_group_nil_result s with h | h | ⟨e, h⟩ <;> rw [h] <;> simp

/-! ## Claims -/

/-- C3: `into_strategies` partitions every backend's ordered action list into
the three lists by action tag, preserving relative order within each list
(stated via order-preserving `filterMap` projections); every all-empty
`Strategy` is pruned from the returned collection; and on the concrete actions
`[Delete p1, AssignGroup (p2, g), AsDependency p3]` the strategy has
`to_delete = [p1]`, `assign_group = [(p2, g)]`, `as_dependency = [p3]`. -/
theorem into_strategies_partitions_and_prunes :
    (∀ actions : List ReviewAction,
      extract_actions actions =
        (actions.filterMap (fun a => match a with
          | ReviewAction.Delete p => some p
          | _ => none),
         actions.filterMap (fun a => match a with
          | ReviewAction.AssignGroup p g => some (p, g)
          | _ => none),
         actions.filterMap (fun a => match a with
          | ReviewAction.AsDependency p => some p
          | _ => none))) ∧
    (∀ (items : List (Backend × List ReviewAction)) (strat : Strategy),
      strat ∈ into_strategies items → strat.nothing_to_do = false) ∧
    (∀ (b : Backend) (p1 p2 p3 : Package) (g : Group),
      into_strategies
          [(b, [ReviewAction.Delete p1, ReviewAction.AssignGroup p2 g,
            ReviewAction.AsDependency p3])] =
        [⟨b, [p1], [p3], [(p2, g)]⟩]) := by
  refine ⟨?_, ?_, ?_⟩
  · intro actions
    induction actions with
    | nil => rfl
    | cons a rest ih =>
      cases a <;> simp [extract_actions, List.filterMap_cons, ih]
  · intro items strat hmem
    unfold into_strategies at hmem
    rw [List.mem_filter] at hmem
    simpa using hmem.2
  · intro b p1 p2 p3 g
    rfl

/-- C3 witness: a concrete surviving strategy is not "nothing to do". -/
theorem into_strategies_partitions_and_prunes_witness :
    (Strategy.mk ⟨"apt", false⟩ ["pkg"] [] []).nothing_to_do = false :=
  into_strategies_partitions_and_prunes.2.1
    [(⟨"apt", false⟩, [ReviewAction.Delete "pkg"])] _ (by decide)

/-- C10: with an empty group set, the digit-width formula evaluates to 1
(via Rust's saturating `as usize` cast of `log10(0).trunc() = -inf`), zero
group lines are printed, `ask_group` never selects a group and never panics,
and on keystroke `'g'` the per-package loop just re-asks: no `AssignGroup`
action can be produced. -/
theorem empty_group_set_safe :
    get_amount_of_digits_for_number 0 = 1 ∧
    (∀ s : Sess, (print_enumerated_groups [] s).out = s.out) ∧
    (∀ (s : Sess) (g : Group), (ask_group [] s).1 ≠ .ok (some g)) ∧
    (∀ s : Sess, (ask_group [] s).1 ≠ .error .assertFailed) ∧
    (∀ (fuel : Nat) (p : Package) (reviews : List ReviewAction) (b : Backend)
      (s : Sess) (rest : List (Except IOErr Char)),
      s.chars = .ok 'g' :: rest →
      get_action_for_package (fuel + 1) p [] reviews b s =
        get_action_for_package fuel p [] reviews b
          (ask_group [] { s with
            chars := rest,
            out := s.out ++ [OutEvent.query b.supports_as_dependency] }).2) := by
  refine ⟨rfl, ?_, ask_group_nil_not_some, ?_, ?_⟩
  · intro s
    simp [print_enumerated_groups]
  · intro s
    rcases ask_group_nil_result s with h | h | ⟨e, h⟩ <;> rw [h] <;> simp
  · intro fuel p reviews b s rest h
    have hau := ask_user_ok_char b.supports_as_dependency s 'g' rest h
    simp only [get_action_for_package, hau]
    simp only [show ('g').toLower = 'g' from rfl]
    simp only [show (('g' : Char) = 'a') = False by simp, decide_eq_true_eq,
      decide_False, Bool.false_and, Bool.and_eq_true, if_false]
    norm_num
    rcases hag : ask_group []
        { s with
          chars := rest,
          out := s.out ++ [OutEvent.query b.supports_as_dependency] } with ⟨r2, s2⟩
    cases r2 with
    | error e => rfl
    | ok og =>
      cases og with
      | none => rfl
      | some g =>
        exact absurd (by rw [hag])
          (ask_group_nil_not_some
            { s with
              chars := rest,
              out := s.out ++ [OutEvent.query b.supports_as_dependency] } g)

/-- C10 witness: concrete run with zero groups and keystroke `'g'`. -/
theorem empty_group_set_safe_witness :
    ((ask_group [] Sess.empty).1 ≠ .ok (some (Group.mk "base" []))) ∧
    get_action_for_package 1 "pkg" [] [] ⟨"apt", false⟩
        { Sess.empty with chars := [Except.ok 'g'] } =
      get_action_for_package 0 "pkg" [] [] ⟨"apt", false⟩
        (ask_group []
          { { Sess.empty with chars := [Except.ok 'g'] } with
            chars := [],
            out := { Sess.empty with chars := [Except.ok 'g'] }.out ++
              [OutEvent.query (Backend.mk "apt" false).supports_as_dependency] }).2 :=
  ⟨empty_group_set_safe.2.2.1 Sess.empty ⟨"base", []⟩,
   empty_group_set_safe.2.2.2.2 0 "pkg" [] ⟨"apt", false⟩
     { Sess.empty with chars := [Except.ok 'g'] } [] rfl⟩

/-- C4: for a backend without the as-dependency capability, keystroke `'a'`
maps to `Invalid` exactly like any unrecognized keystroke, and the per-package
loop continues with nothing appended — the prompt is printed again by the next
iteration. -/
theorem unsupported_a_is_invalid :
    (∀ (s : Sess) (c : Char) (rest : List (Except IOErr Char)),
      s.chars = .ok c :: rest → c.toLower = 'a' →
      (ask_user_action_for_package false s).1 = .ok .Invalid) ∧
    (∀ (fuel : Nat) (p : Package) (groups : List Group)
      (reviews : List ReviewAction) (b : Backend) (s : Sess) (c : Char)
      (rest : List (Except IOErr Char)),
      b.supports_as_dependency = false →
      s.chars = .ok c :: rest → c.toLower = 'a' →
      get_action_for_package (fuel + 1) p groups reviews b s =
        get_action_for_package fuel p groups reviews b
          { s with
            chars := rest,
            out := s.out ++ [OutEvent.query false] }) := by
  constructor
  · intro s c rest hs hc
    rw [ask_user_ok_char false s c rest hs]
    simp [hc]
  · intro fuel p groups reviews b s c rest hb hs hc
    have hau := ask_user_ok_char b.supports_as_dependency s c rest hs
    rw [hb] at hau
    simp only [get_action_for_package, hb, hau]
    simp [hc]

/-- C4 witness: concrete keystroke `'a'` on a backend without the
capability. -/
theorem unsupported_a_is_invalid_witness :
    (ask_user_action_for_package false
        { Sess.empty with chars := [Except.ok 'a'] }).1 = .ok .Invalid ∧
    get_action_for_package 1 "pkg" [] [] ⟨"apt", false⟩
        { Sess.empty with chars := [Except.ok 'a'] } =
      get_action_for_package 0 "pkg" [] [] ⟨"apt", false⟩
        { { Sess.empty with chars := [Except.ok 'a'] } with
          chars := [],
          out := { Sess.empty with chars := [Except.ok 'a'] }.out ++
            [OutEvent.query false] } :=
  ⟨unsupported_a_is_invalid.1 _ 'a' [] rfl rfl,
   unsupported_a_is_invalid.2 0 "pkg" [] [] ⟨"apt", false⟩ _ 'a' [] rfl rfl rfl⟩

/-- C5: group selection over N groups: a non-parsing line or a parsed index
`≥ N` yields `Ok(None)` (not an error); a valid index `i < N` yields the
`i`-th group of the given (sorted) list; and on a `'g'` keystroke whose
selection yields no group, the loop re-asks for an action with nothing
recorded. -/
theorem group_selection_bounds :
    (∀ (groups : List Group) (s : Sess) (buf : String)
      (rest : List (Except IOErr String)),
      s.lines = .ok buf :: rest → parse_usize (str_trim buf) = none →
      (ask_group groups s).1 = .ok none) ∧
    (∀ (groups : List Group) (s : Sess) (buf : String)
      (rest : List (Except IOErr String)) (idx : Nat),
      s.lines = .ok buf :: rest → parse_usize (str_trim buf) = some idx →
      groups.length ≤ idx → (ask_group groups s).1 = .ok none) ∧
    (∀ (groups : List Group) (s : Sess) (buf : String)
      (rest : List (Except IOErr String)) (idx : Nat)
      (h : idx < groups.length),
      s.lines = .ok buf :: rest → parse_usize (str_trim buf) = some idx →
      (ask_group groups s).1 = .ok (some (groups.get ⟨idx, h⟩))) ∧
    (∀ (fuel : Nat) (p : Package) (groups : List Group)
      (reviews : List ReviewAction) (b : Backend) (s : Sess) (c : Char)
      (rest : List (Except IOErr Char)),
      s.chars = .ok c :: rest → c.toLower = 'g' →
      (ask_group groups
        { s with
          chars := rest,
          out := s.out ++ [OutEvent.query b.supports_as_dependency] }).1 =
        .ok none →
      get_action_for_package (fuel + 1) p groups reviews b s =
        get_action_for_package fuel p groups reviews b
          (ask_group groups
            { s with
              chars := rest,
              out := s.out ++ [OutEvent.query b.supports_as_dependency] }).2) := by
  refine ⟨?_, ?_, ?_, ?_⟩
  · intro groups s buf rest hl hp
    unfold ask_group read_line print_enumerated_groups
    simp [hl, hp]
  · intro groups s buf rest idx hl hp hge
    have hnot : ¬ idx < groups.length := not_lt.mpr hge
    unfold ask_group read_line print_enumerated_groups
    simp [hl, hp, hnot]
  · intro groups s buf rest idx h hl hp
    unfold ask_group read_line print_enumerated_groups
    simp [hl, hp, h]
  · intro fuel p groups reviews b s c rest hs hc hnone
    have hau := ask_user_ok_char b.supports_as_dependency s c rest hs
    simp only [get_action_for_package, hau, hc]
    simp only [show (('g' : Char) = 'a') = False by simp,
      show (('g' : Char) = 'd') = False by simp, decide_False, Bool.false_and,
      if_false, if_true, show (('g' : Char) = 'g') = True by simp]
    rcases hag : ask_group groups
        { s with
          chars := rest,
          out := s.out ++ [OutEvent.query b.supports_as_dependency] }
      with ⟨r2, s2⟩
    rw [hag] at hnone
    simp at hnone
    subst hnone
    rfl

/-- C5 witness: concrete selections over one group named "base": a
non-numeric line, an out-of-bounds index, a valid index, and the re-ask
equality. -/
theorem group_selection_bounds_witness :
    (ask_group [Group.mk "base" []]
        { Sess.empty with lines := [Except.ok "xyz"] }).1 = .ok none ∧
    (ask_group [Group.mk "base" []]
        { Sess.empty with lines := [Except.ok "5"] }).1 = .ok none ∧
    (ask_group [Group.mk "base" []]
        { Sess.empty with lines := [Except.ok "0"] }).1 =
      .ok (some (([Group.mk "base" []] : List Group).get ⟨0, by decide⟩)) ∧
    get_action_for_package 1 "pkg" [Group.mk "base" []] [] ⟨"apt", false⟩
        { Sess.empty with chars := [Except.ok 'g'], lines := [Except.ok "7"] } =
      get_action_for_package 0 "pkg" [Group.mk "base" []] [] ⟨"apt", false⟩
        (ask_group [Group.mk "base" []]
          { { Sess.empty with
              chars := [Except.ok 'g'],
              lines := [Except.ok "7"] } with
            chars := [],
            out := { Sess.empty with
              chars := [Except.ok 'g'],
              lines := [Except.ok "7"] }.out ++
              [OutEvent.query (Backend.mk "apt" false).supports_as_dependency] }).2 :=
  ⟨group_selection_bounds.1 [Group.mk "base" []] _ "xyz" [] rfl (by decide),
   group_selection_bounds.2.1 [Group.mk "base" []] _ "5" [] 5 rfl (by decide)
     (by decide),
   group_selection_bounds.2.2.1 [Group.mk "base" []] _ "0" [] 0 (by decide) rfl
     (by decide),
   group_selection_bounds.2.2.2 0 "pkg" [Group.mk "base" []] [] ⟨"apt", false⟩
     _ 'g' [] rfl rfl (by decide)⟩

/-- C2: keystroke `'q'` (however capitalised) makes `get_action_for_package`
return the stop signal `No` with nothing appended, and whenever the collection
loop reports quit, `review` returns `Ok(())` at once with the confirmation
queue, execution queue and executed trace untouched: zero strategies are
built, previewed or executed, regardless of decisions already collected. -/
theorem quit_aborts_review :
    (∀ (fuel : Nat) (p : Package) (groups : List Group)
      (reviews : List ReviewAction) (b : Backend) (s : Sess) (c : Char)
      (rest : List (Except IOErr Char)),
      s.chars = .ok c :: rest → c.toLower = 'q' →
      get_action_for_package (fuel + 1) p groups reviews b s =
        (.ok .No, reviews,
          { s with
            chars := rest,
            out := s.out ++ [OutEvent.query b.supports_as_dependency] })) ∧
    (∀ (fuel : Nat) (todo : List (Backend × List Package))
      (groups : List Group) (s s' : Sess),
      nothing_to_do_for_all_backends todo = false →
      review_backends fuel (sortGroups groups) todo [] s = (.ok none, s') →
      review fuel todo groups s = (.ok (), s') ∧
        s'.executed = s.executed ∧ s'.confirms = s.confirms ∧
        s'.execs = s.execs) := by
  constructor
  · intro fuel p groups reviews b s c rest hs hc
    have hau := ask_user_ok_char b.supports_as_dependency s c rest hs
    simp only [get_action_for_package, hau, hc]
    simp
  · intro fuel todo groups s s' hne hrb
    have hu := review_backends_unchangedCEE fuel (sortGroups groups) todo [] s
    rw [hrb] at hu
    refine ⟨?_, hu.2.2, hu.1, hu.2.1⟩
    unfold review
    simp [hne, hrb]

/-- C2 witness: an uppercase `'Q'` stops one package, and a full concrete
session quits with nothing executed. -/
theorem quit_aborts_review_witness :
    get_action_for_package 1 "pkg" [] [] ⟨"apt", false⟩
        { Sess.empty with chars := [Except.ok 'Q'] } =
      (.ok .No, [],
        { { Sess.empty with chars := [Except.ok 'Q'] } with
          chars := [],
          out := { Sess.empty with chars := [Except.ok 'Q'] }.out ++
            [OutEvent.query false] }) ∧
    (review 1 [(⟨"apt", false⟩, ["pkg"])] []
        { Sess.empty with chars := [Except.ok 'q'] } =
      (.ok (),
        { Sess.empty with
          out := [OutEvent.text "apt: pkg", OutEvent.query false] }) ∧
      ({ Sess.empty with
          out := [OutEvent.text "apt: pkg", OutEvent.query false] } : Sess).executed =
        ({ Sess.empty with chars := [Except.ok 'q'] } : Sess).executed ∧
      ({ Sess.empty with
          out := [OutEvent.text "apt: pkg", OutEvent.query false] } : Sess).confirms =
        ({ Sess.empty with chars := [Except.ok 'q'] } : Sess).confirms ∧
      ({ Sess.empty with
          out := [OutEvent.text "apt: pkg", OutEvent.query false] } : Sess).execs =
        ({ Sess.empty with chars := [Except.ok 'q'] } : Sess).execs) :=
  ⟨quit_aborts_review.1 0 "pkg" [] [] ⟨"apt", false⟩ _ 'Q' [] rfl rfl,
   quit_aborts_review.2 1 [(⟨"apt", false⟩, ["pkg"])] []
     { Sess.empty with chars := [Except.ok 'q'] }
     { Sess.empty with
       out := [OutEvent.text "apt: pkg", OutEvent.query false] }
     (by decide) (by decide)⟩

/-- C8: each call of the per-package loop appends at most one `ReviewAction`:
the result vector is the input vector or the input vector plus exactly one
action; quit (`No`) and every propagated error append nothing; keystroke `'s'`
(Skip) exits with nothing appended; keystroke `'d'` (a terminal decision)
appends exactly one action and exits. -/
theorem at_most_one_action_per_package :
    ∀ (fuel : Nat) (p : Package) (groups : List Group)
      (reviews : List ReviewAction) (b : Backend) (s : Sess),
      ((get_action_for_package fuel p groups reviews b s).2.1 = reviews ∨
        ∃ a, (get_action_for_package fuel p groups reviews b s).2.1 =
          reviews ++ [a]) ∧
      ((get_action_for_package fuel p groups reviews b s).1 = .ok .No →
        (get_action_for_package fuel p groups reviews b s).2.1 = reviews) ∧
      (∀ e, (get_action_for_package fuel p groups reviews b s).1 = .error e →
        (get_action_for_package fuel p groups reviews b s).2.1 = reviews) ∧
      (∀ (c : Char) (rest : List (Except IOErr Char)),
        s.chars = .ok c :: rest → c.toLower = 's' →
        get_action_for_package (fuel + 1) p groups reviews b s =
          (.ok .Yes, reviews,
            { s with
              chars := rest,
              out := s.out ++ [OutEvent.query b.supports_as_dependency] })) ∧
      (∀ (c : Char) (rest : List (Except IOErr Char)),
        s.chars = .ok c :: rest → c.toLower = 'd' →
        get_action_for_package (fuel + 1) p groups reviews b s =
          (.ok .Yes, reviews ++ [ReviewAction.Delete p],
            { s with
              chars := rest,
              out := s.out ++ [OutEvent.query b.supports_as_dependency] })) := by
  intro fuel p groups reviews b s
  have hr := gafp_reviews fuel p groups reviews b s
  refine ⟨hr.1, hr.2.2, hr.2.1, ?_, ?_⟩
  · intro c rest hs hc
    have hau := ask_user_ok_char b.supports_as_dependency s c rest hs
    simp only [get_action_for_package, hau, hc]
    simp
  · intro c rest hs hc
    have hau := ask_user_ok_char b.supports_as_dependency s c rest hs
    simp only [get_action_for_package, hau, hc]
    simp

/-- C8 witness: a concrete Skip appends nothing; a concrete Delete appends
exactly one action. -/
theorem at_most_one_action_per_package_witness :
    get_action_for_package 1 "pkg" [] [] ⟨"apt", false⟩
        { Sess.empty with chars := [Except.ok 's'] } =
      (.ok .Yes, [],
        { { Sess.empty with chars := [Except.ok 's'] } with
          chars := [],
          out := { Sess.empty with chars := [Except.ok 's'] }.out ++
            [OutEvent.query false] }) ∧
    get_action_for_package 1 "pkg" [] [] ⟨"apt", false⟩
        { Sess.empty with chars := [Except.ok 'd'] } =
      (.ok .Yes, [ReviewAction.Delete "pkg"],
        { { Sess.empty with chars := [Except.ok 'd'] } with
          chars := [],
          out := { Sess.empty with chars := [Except.ok 'd'] }.out ++
            [OutEvent.query false] }) :=
  ⟨(at_most_one_action_per_package 0 "pkg" [] [] ⟨"apt", false⟩
      { Sess.empty with chars := [Except.ok 's'] }).2.2.2.1 's' [] rfl rfl,
   (at_most_one_action_per_package 0 "pkg" [] [] ⟨"apt", false⟩
      { Sess.empty with chars := [Except.ok 'd'] }).2.2.2.2 'd' [] rfl rfl⟩

/-- C9: the assertion guarding the `AsDependency` branch never fails:
`ask_user_action_for_package` returns `AsDependency` only when the backend's
capability flag is true, so `get_action_for_package` never reaches the
`assert!` failure for any input. -/
theorem asdep_assert_never_fails :
    (∀ (sad : Bool) (s s' : Sess),
      ask_user_action_for_package sad s = (.ok .AsDependency, s') →
      sad = true) ∧
    (∀ (fuel : Nat) (p : Package) (groups : List Group)
      (reviews : List ReviewAction) (b : Backend) (s : Sess),
      (get_action_for_package fuel p groups reviews b s).1 ≠
        .error .assertFailed) := by
  constructor
  · intro sad s s' h
    exact ask_user_asdep sad s (by rw [h])
  · exact gafp_no_assert

/-- C9 witness: a concrete `'a'` on a capable backend, and no assertion
failure on a concrete run. -/
theorem asdep_assert_never_fails_witness :
    (true : Bool) = true ∧
    (get_action_for_package 1 "pkg" [] [] ⟨"pacman", true⟩
        { Sess.empty with chars := [Except.ok 'a'] }).1 ≠
      .error .assertFailed :=
  ⟨asdep_assert_never_fails.1 true { Sess.empty with chars := [Except.ok 'a'] }
      { Sess.empty with out := [OutEvent.query true] } (by decide),
   asdep_assert_never_fails.2 1 "pkg" [] [] ⟨"pacman", true⟩
     { Sess.empty with chars := [Except.ok 'a'] }⟩

/-- A failing line read inside `ask_group`: the enumeration is printed, the
error result is consumed, and `ask_group` returns the error — which the
caller's `if let Ok(Some(..))` then silently discards. -/
theorem ask_group_line_error (groups : List Group) (s : Sess) (e : IOErr)
    (lrest : List (Except IOErr String)) (h : s.lines = .error e :: lrest) :
    ask_group groups s =
      (.error (.io e),
        { print_enumerated_groups groups s with lines := lrest }) := by
  unfold ask_group read_line print_enumerated_groups
  simp [h]

/-- C1 counterexample: in this concrete session the group-selection line read
returns an I/O error (`lines = [error "io failure"]` is consumed during the
`'g'` sub-flow), yet `review` returns `Ok(())` and one strategy is executed —
the error did not propagate and the session did not abort, refuting the claim
for the line-read point. -/
theorem line_read_error_not_propagated :
    (review 2 [(⟨"apt", false⟩, ["pkg"])] [⟨"base", []⟩]
        { Sess.empty with
          chars := [Except.ok 'g', Except.ok 'd'],
          lines := [Except.error "io failure"],
          confirms := [Except.ok true],
          execs := [Except.ok ()] }).1 = .ok () ∧
    (review 2 [(⟨"apt", false⟩, ["pkg"])] [⟨"base", []⟩]
        { Sess.empty with
          chars := [Except.ok 'g', Except.ok 'd'],
          lines := [Except.error "io failure"],
          confirms := [Except.ok true],
          execs := [Except.ok ()] }).2.executed =
      [⟨⟨"apt", false⟩, ["pkg"], [], []⟩] := by
  exact ⟨rfl, rfl⟩

/-- C1 (amended): an I/O error from the single-character action-prompt read,
and an error from the backend info query, propagate immediately out of the
per-package loop, and any error from the collection loop propagates out of
`review` with no strategy executed; but an I/O error from the group-selection
line read is swallowed by `if let Ok(Some(..))`: the loop treats it like "no
group selected" and re-asks. -/
theorem io_error_propagation :
    (∀ (fuel : Nat) (p : Package) (groups : List Group)
      (reviews : List ReviewAction) (b : Backend) (s : Sess) (e : IOErr)
      (rest : List (Except IOErr Char)),
      s.chars = .error e :: rest →
      get_action_for_package (fuel + 1) p groups reviews b s =
        (.error (.io e), reviews,
          { s with
            chars := rest,
            out := s.out ++ [OutEvent.query b.supports_as_dependency] })) ∧
    (∀ (fuel : Nat) (p : Package) (groups : List Group)
      (reviews : List ReviewAction) (b : Backend) (s : Sess) (c : Char)
      (rest : List (Except IOErr Char)) (e : IOErr)
      (irest : List (Except IOErr Unit)),
      s.chars = .ok c :: rest → c.toLower = 'i' →
      s.infos = .error e :: irest →
      (get_action_for_package (fuel + 1) p groups reviews b s).1 =
        .error (.io e)) ∧
    (∀ (fuel : Nat) (p : Package) (groups : List Group)
      (reviews : List ReviewAction) (b : Backend) (s : Sess) (c : Char)
      (rest : List (Except IOErr Char)) (e : IOErr)
      (lrest : List (Except IOErr String)),
      s.chars = .ok c :: rest → c.toLower = 'g' →
      s.lines = .error e :: lrest →
      get_action_for_package (fuel + 1) p groups reviews b s =
        get_action_for_package fuel p groups reviews b
          (ask_group groups
            { s with
              chars := rest,
              out := s.out ++ [OutEvent.query b.supports_as_dependency] }).2) ∧
    (∀ (fuel : Nat) (todo : List (Backend × List Package))
      (groups : List Group) (s : Sess) (e : Err) (s' : Sess),
      nothing_to_do_for_all_backends todo = false →
      review_backends fuel (sortGroups groups) todo [] s = (.error e, s') →
      review fuel todo groups s = (.error e, s') ∧
        s'.executed = s.executed) := by
  refine ⟨?_, ?_, ?_, ?_⟩
  · intro fuel p groups reviews b s e rest hs
    have hau := ask_user_err_char b.supports_as_dependency s e rest hs
    simp only [get_action_for_package, hau]
  · intro fuel p groups reviews b s c rest e irest hs hc hi
    have hau := ask_user_ok_char b.supports_as_dependency s c rest hs
    simp only [get_action_for_package, hau, hc]
    simp only [show (('i' : Char) = 'a') = False by simp,
      show (('i' : Char) = 'd') = False by simp,
      show (('i' : Char) = 'g') = False by simp,
      show (('i' : Char) = 'i') = True by simp, decide_False, Bool.false_and,
      if_false, if_true]
    unfold show_package_info
    simp [hi]
  · intro fuel p groups reviews b s c rest e lrest hs hc hl
    have hau := ask_user_ok_char b.supports_as_dependency s c rest hs
    simp only [get_action_for_package, hau, hc]
    simp only [show (('g' : Char) = 'a') = False by simp,
      show (('g' : Char) = 'd') = False by simp,
      show (('g' : Char) = 'g') = True by simp, decide_False, Bool.false_and,
      if_false, if_true]
    rw [ask_group_line_error groups
      { s with
        chars := rest,
        out := s.out ++ [OutEvent.query b.supports_as_dependency] } e lrest hl]
    rfl
  · intro fuel todo groups s e s' hne hrb
    have hu := review_backends_unchangedCEE fuel (sortGroups groups) todo [] s
    rw [hrb] at hu
    refine ⟨?_, hu.2.2⟩
    unfold review
    simp [hne, hrb]

/-- C1 amended-claim witness: each propagation point at a concrete input. -/
theorem io_error_propagation_witness :
    get_action_for_package 1 "pkg" [] [] ⟨"apt", false⟩
        { Sess.empty with chars := [Except.error "boom"] } =
      (.error (.io "boom"), [],
        { { Sess.empty with chars := [Except.error "boom"] } with
          chars := [],
          out := { Sess.empty with chars := [Except.error "boom"] }.out ++
            [OutEvent.query false] }) ∧
    (get_action_for_package 1 "pkg" [] [] ⟨"apt", false⟩
        { Sess.empty with
          chars := [Except.ok 'i'],
          infos := [Except.error "info dead"] }).1 = .error (.io "info dead") ∧
    get_action_for_package 1 "pkg" [] [] ⟨"apt", false⟩
        { Sess.empty with
          chars := [Except.ok 'g'],
          lines := [Except.error "line dead"] } =
      get_action_for_package 0 "pkg" [] [] ⟨"apt", false⟩
        (ask_group []
          { { Sess.empty with
              chars := [Except.ok 'g'],
              lines := [Except.error "line dead"] } with
            chars := [],
            out := { Sess.empty with
              chars := [Except.ok 'g'],
              lines := [Except.error "line dead"] }.out ++
              [OutEvent.query (Backend.mk "apt" false).supports_as_dependency] }).2 :=
  ⟨io_error_propagation.1 0 "pkg" [] [] ⟨"apt", false⟩ _ "boom" [] rfl,
   io_error_propagation.2.1 0 "pkg" [] [] ⟨"apt", false⟩ _ 'i' [] "info dead"
     [] rfl rfl rfl,
   io_error_propagation.2.2.1 0 "pkg" [] [] ⟨"apt", false⟩ _ 'g' [] "line dead"
     [] rfl rfl rfl⟩

/-- The confirmation prompt is reached with the confirmation queue untouched
by the preview prints. -/
theorem preview_confirms_untouched (revs : List (Backend × List ReviewAction))
    (s : Sess) :
    (Sess.print (show_strategies (into_strategies revs)
        (Sess.print s (.text ""))) (.text "")).confirms = s.confirms := by
  have hf := show_strategies_fields (into_strategies revs) (Sess.print s (.text ""))
  exact hf.2.2.2.1

/-- Declined confirmation: `review` line 62–64 returns `Ok(())` without
executing; exactly one confirmation result is consumed. -/
theorem preview_and_execute_declined (revs : List (Backend × List ReviewAction))
    (s : Sess) (rest : List (Except IOErr Bool))
    (hne : reviews_nothing_to_do revs = false)
    (hc : s.confirms = .ok false :: rest) :
    preview_and_execute revs s =
      (.ok (), { Sess.print (show_strategies (into_strategies revs)
          (Sess.print s (.text ""))) (.text "") with confirms := rest }) := by
  have htc : (Sess.print (show_strategies (into_strategies revs)
      (Sess.print s (.text ""))) (.text "")).confirms = Except.ok false :: rest :=
    (preview_confirms_untouched revs s).trans hc
  unfold preview_and_execute get_user_confirmation
  simp only [hne, htc]
  simp

/-- Accepted confirmation: `review` line 66–68 hands the pruned strategies to
the execution loop; exactly one confirmation result is consumed. -/
theorem preview_and_execute_accepted (revs : List (Backend × List ReviewAction))
    (s : Sess) (rest : List (Except IOErr Bool))
    (hne : reviews_nothing_to_do revs = false)
    (hc : s.confirms = .ok true :: rest) :
    preview_and_execute revs s =
      execute_strategies (into_strategies revs)
        { Sess.print (show_strategies (into_strategies revs)
            (Sess.print s (.text ""))) (.text "") with confirms := rest } := by
  have htc : (Sess.print (show_strategies (into_strategies revs)
      (Sess.print s (.text ""))) (.text "")).confirms = Except.ok true :: rest :=
    (preview_confirms_untouched revs s).trans hc
  unfold preview_and_execute get_user_confirmation
  simp only [hne, htc]
  simp

/-- C6: every session that reaches the preview phase requests exactly one
confirmation for the whole batch (one confirmation result is consumed, both
on decline and on accept), and a declined confirmation makes `review` return
success with nothing executed. -/
theorem single_batch_confirmation :
    (∀ (revs : List (Backend × List ReviewAction)) (s : Sess)
      (rest : List (Except IOErr Bool)),
      reviews_nothing_to_do revs = false → s.confirms = .ok false :: rest →
      (preview_and_execute revs s).1 = .ok () ∧
      (preview_and_execute revs s).2.executed = s.executed ∧
      (preview_and_execute revs s).2.confirms = rest) ∧
    (∀ (revs : List (Backend × List ReviewAction)) (s : Sess)
      (rest : List (Except IOErr Bool)),
      reviews_nothing_to_do revs = false → s.confirms = .ok true :: rest →
      (preview_and_execute revs s).2.confirms = rest) ∧
    (∀ (fuel : Nat) (todo : List (Backend × List Package))
      (groups : List Group) (s s' : Sess)
      (revs : List (Backend × List ReviewAction)),
      nothing_to_do_for_all_backends todo = false →
      review_backends fuel (sortGroups groups) todo [] s = (.ok (some revs), s') →
      review fuel todo groups s = preview_and_execute revs s') := by
  refine ⟨?_, ?_, ?_⟩
  · intro revs s rest hne hc
    rw [preview_and_execute_declined revs s rest hne hc]
    have hf := show_strategies_fields (into_strategies revs) (Sess.print s (.text ""))
    exact ⟨rfl, hf.2.2.2.2.2, rfl⟩
  · intro revs s rest hne hc
    rw [preview_and_execute_accepted revs s rest hne hc]
    have hx := execute_strategies_fields (into_strategies revs)
      { Sess.print (show_strategies (into_strategies revs)
          (Sess.print s (.text ""))) (.text "") with confirms := rest }
    exact hx.2.2.2.1
  · intro fuel todo groups s s' revs hne hrb
    unfold review
    simp [hne, hrb]

/-- C6 witness: one backend with one Delete action; the single confirmation
is declined and nothing is executed. -/
theorem single_batch_confirmation_witness :
    (preview_and_execute [(⟨"apt", false⟩, [ReviewAction.Delete "pkg"])]
        { Sess.empty with confirms := [Except.ok false] }).1 = .ok () ∧
    (preview_and_execute [(⟨"apt", false⟩, [ReviewAction.Delete "pkg"])]
        { Sess.empty with confirms := [Except.ok false] }).2.executed =
      ({ Sess.empty with confirms := [Except.ok false] } : Sess).executed ∧
    (preview_and_execute [(⟨"apt", false⟩, [ReviewAction.Delete "pkg"])]
        { Sess.empty with confirms := [Except.ok false] }).2.confirms = [] :=
  single_batch_confirmation.1 [(⟨"apt", false⟩, [ReviewAction.Delete "pkg"])]
    { Sess.empty with confirms := [Except.ok false] } [] (by decide) rfl

/-- C7: the execution loop runs the strategies strictly in the order built:
when the first `n` execution results succeed and the `(n+1)`-st fails, the
error propagates, exactly the first `n` strategies (in order) have been
executed, and no later strategy runs — there is no rollback; when all results
succeed, the executed trace extends by the full strategy list in order. An
accepted confirmation hands over to exactly this loop. -/
theorem execution_order_and_halt :
    (∀ (strats : List Strategy) (s : Sess) (rest : List (Except IOErr Unit)),
      s.execs = List.replicate strats.length (.ok ()) ++ rest →
      execute_strategies strats s =
        (.ok (), { s with execs := rest, executed := s.executed ++ strats })) ∧
    (∀ (strats : List Strategy) (n : Nat) (s : Sess) (e : IOErr)
      (rest : List (Except IOErr Unit)), n < strats.length →
      s.execs = List.replicate n (.ok ()) ++ .error e :: rest →
      (execute_strategies strats s).1 = .error (.io e) ∧
      (execute_strategies strats s).2.executed = s.executed ++ strats.take n) ∧
    (∀ (revs : List (Backend × List ReviewAction)) (s : Sess)
      (rest : List (Except IOErr Bool)),
      reviews_nothing_to_do revs = false → s.confirms = .ok true :: rest →
      preview_and_execute revs s =
        execute_strategies (into_strategies revs)
          { Sess.print (show_strategies (into_strategies revs)
              (Sess.print s (.text ""))) (.text "") with confirms := rest }) := by
  refine ⟨?_, ?_, preview_and_execute_accepted⟩
  · intro strats
    induction strats with
    | nil =>
      intro s rest h
      cases s
      simp_all [execute_strategies]
    | cons strat tail ih =>
      intro s rest h
      simp only [List.length_cons, List.replicate_succ, List.cons_append] at h
      unfold execute_strategies Strategy.execute
      simp only [h]
      rw [ih _ rest (by simp)]
      simp
  · intro strats
    induction strats with
    | nil =>
      intro n s e rest hn
      exact absurd hn (by simp)
    | cons strat tail ih =>
      intro n s e rest hn h
      cases n with
      | zero =>
        simp only [List.replicate, List.nil_append] at h
        unfold execute_strategies Strategy.execute
        simp [h]
      | succ m =>
        simp only [List.replicate_succ, List.cons_append] at h
        unfold execute_strategies Strategy.execute
        simp only [h]
        have hm : m < tail.length := by
          simpa using hn
        have := ih m { s with
          execs := List.replicate m (Except.ok ()) ++ Except.error e :: rest,
          executed := s.executed ++ [strat] } e rest hm rfl
        simp only at this
        refine ⟨this.1.trans rfl, ?_⟩
        rw [this.2]
        simp [List.take_succ_cons]

/-- C7 witness: two strategies, first execution succeeds, second fails: the
error propagates and exactly the first strategy was executed; and a two-ok
run executes both in order. -/
theorem execution_order_and_halt_witness :
    execute_strategies
        [⟨⟨"apt", false⟩, ["p1"], [], []⟩, ⟨⟨"brew", false⟩, ["p2"], [], []⟩]
        { Sess.empty with execs := [Except.ok (), Except.ok ()] } =
      (.ok (), { { Sess.empty with execs := [Except.ok (), Except.ok ()] } with
        execs := [],
        executed := ({ Sess.empty with
          execs := [Except.ok (), Except.ok ()] } : Sess).executed ++
          [⟨⟨"apt", false⟩, ["p1"], [], []⟩, ⟨⟨"brew", false⟩, ["p2"], [], []⟩] }) ∧
    (execute_strategies
        [⟨⟨"apt", false⟩, ["p1"], [], []⟩, ⟨⟨"brew", false⟩, ["p2"], [], []⟩]
        { Sess.empty with
          execs := [Except.ok (), Except.error "exec dead"] }).1 =
      .error (.io "exec dead") ∧
    (execute_strategies
        [⟨⟨"apt", false⟩, ["p1"], [], []⟩, ⟨⟨"brew", false⟩, ["p2"], [], []⟩]
        { Sess.empty with
          execs := [Except.ok (), Except.error "exec dead"] }).2.executed =
      ({ Sess.empty with
        execs := [Except.ok (), Except.error "exec dead"] } : Sess).executed ++
        [⟨⟨"apt", false⟩, ["p1"], [], []⟩] :=
  ⟨execution_order_and_halt.1
     [⟨⟨"apt", false⟩, ["p1"], [], []⟩, ⟨⟨"brew", false⟩, ["p2"], [], []⟩]
     { Sess.empty with execs := [Except.ok (), Except.ok ()] } [] rfl,
   (execution_order_and_halt.2.1
     [⟨⟨"apt", false⟩, ["p1"], [], []⟩, ⟨⟨"brew", false⟩, ["p2"], [], []⟩]
     1 { Sess.empty with execs := [Except.ok (), Except.error "exec dead"] }
     "exec dead" [] (by decide) rfl).1,
   (execution_order_and_halt.2.1
     [⟨⟨"apt", false⟩, ["p1"], [], []⟩, ⟨⟨"brew", false⟩, ["p2"], [], []⟩]
     1 { Sess.empty with execs := [Except.ok (), Except.error "exec dead"] }
     "exec dead" [] (by decide) rfl).2⟩

end Pacdef
